import Mathlib

/-!
Verification of the ZIP-Code / ZCTA crosswalk module (`zip_codes.py`).

Python strings are modelled as lists of characters (`Str`), JSON objects as
association lists with distinct keys (`Dict`), and Python `None` as `Option.none`.
Inputs to the resolvers may be strings, integers or `None`; the inductive
`RawInput` covers these cases, every other Python value entering the module
only through its `str()` rendering.
-/

set_option autoImplicit false

/-- Python strings, modelled as lists of characters. -/
abbrev Str := List Char

/-- A JSON object mapping code strings to code strings, in insertion order. -/
abbrev Dict := List (Str × Str)

/-- Inputs accepted by the resolvers: a string, an integer, or Python `None`.
`zip_code_formatter` first applies `str()` to its argument, so these are the
shapes that matter; any other value is covered by the string case via its
textual rendering. -/
inductive RawInput where
  | str : Str → RawInput
  | int : Int → RawInput
  | pyNone : RawInput
deriving DecidableEq

/-- Python `str()` on the supported input shapes (`str(None) = "None"`,
`str(n)` is the decimal rendering of the integer). -/
def pyStr : RawInput → Str
  | .str s => s
  | .int n => (toString n).toList
  | .pyNone => "None".toList

/-- Re-inject a resolver result (a string or `None`) as a raw input, as happens
when one resolver's output is fed to another (`lat_lon_centroid` re-formats the
crosswalk result, and idempotence feeds `zip_code_formatter` its own output). -/
def retToRaw : Option Str → RawInput
  | some s => .str s
  | none => .pyNone

/-- The null sentinel strings of `zip_code_formatter` (source line 113). -/
def null_list : List Str :=
  ["0".toList, "nan".toList, "null".toList, "none".toList, "0none".toList, "00nan".toList]

/-- Source line 102-103: `if len(postal_code) > 5: postal_code = postal_code[:5]`. -/
def truncate5 (s : Str) : Str :=
  if s.length > 5 then s.take 5 else s

/-- Python `str.replace(c, "")`: remove every occurrence of the character. -/
def removeAll (s : Str) (c : Char) : Str :=
  s.filter (fun a => decide (a ≠ c))

/-- Source line 104-105: if a hyphen is present, remove all hyphens and spaces
(`postal_code.replace("-", "").replace(" ", "")`); otherwise leave unchanged. -/
def strip_separators (s : Str) : Str :=
  if '-' ∈ s then removeAll (removeAll s '-') ' ' else s

/-- Source lines 107-111: left-pad with zeros when the current length is 3
(`"00" + postal_code`) and then, on the updated string, when it is 4
(`"0" + postal_code`). -/
def pad_to_five (s : Str) : Str :=
  let s2 := if s.length = 3 then '0' :: '0' :: s else s
  if s2.length = 4 then '0' :: s2 else s2

/-- The fully processed string of `zip_code_formatter` just before the null
check: `str()`, truncation, separator stripping, zero padding, in that order. -/
def formatted_string (x : RawInput) : Str :=
  pad_to_five (strip_separators (truncate5 (pyStr x)))

/-- Source lines 98-116, `zip_code_formatter`: process the input and return
`None` when the result is empty or, lowercased, one of the null sentinels. -/
def zip_code_formatter (x : RawInput) : Option Str :=
  let s := formatted_string x
  if s = [] ∨ s.map Char.toLower ∈ null_list then none else some s

/-- Lookup in a JSON object (Python `d[k]` / `k in d`), first match. -/
def dictGet {α : Type} : List (Str × α) → Str → Option α
  | [], _ => none
  | (k, v) :: rest, key => if k = key then some v else dictGet rest key

/-- A JSON object has pairwise distinct keys. -/
abbrev distinctKeys {α : Type} (d : List (Str × α)) : Prop :=
  (d.map Prod.fst).Nodup

/-- Source lines 119-152, `zip_code_crosswalk`: format the code, look it up in
the crosswalk, and on a miss return the formatted input itself (possibly
`None`) when `use_postalcode_if_error` is set, else `None`.  The formatted
code `None` is never a key of the string-keyed crosswalk, so it always
takes the miss branch. -/
def zip_code_crosswalk (crosswalk : Dict) (postal_code : RawInput)
    (use_postalcode_if_error : Bool) : Option Str :=
  let pc := zip_code_formatter postal_code
  match pc.bind (dictGet crosswalk) with
  | some zcta => some zcta
  | none => if use_postalcode_if_error then pc else none

/-- A value of the reverse crosswalk, and a result of `reverse_zcta_crosswalk`:
either a bare scalar (possibly `None`) or a Python list whose elements are
strings or `None`.  `reverse_dict` stores scalars exactly when it collapses
(source lines 28-29), and the resolver's fallback list may contain `None`. -/
inductive PyRet where
  | scalar : Option Str → PyRet
  | list : List (Option Str) → PyRet
deriving DecidableEq

/-- Whether a resolver result is a Python list (as opposed to a bare scalar). -/
def PyRet.isList : PyRet → Bool
  | .list _ => true
  | .scalar _ => false

/-- One `reverse_dictionary[value].append(key)` step of the loop in
`reverse_dict` (source lines 19-25): append `k` to the entry of `v`, creating
the entry at the end when absent (defaultdict insertion order). -/
def addRev (acc : List (Str × List Str)) (v k : Str) : List (Str × List Str) :=
  match acc with
  | [] => [(v, [k])]
  | (v', l) :: rest => if v' = v then (v', l ++ [k]) :: rest else (v', l) :: addRev rest v k

/-- The loop of `reverse_dict` (source lines 19-25) over all key/value pairs.
The crosswalk values are plain strings, so the `isinstance(value, list)`
branch of the source is never taken for crosswalk inputs. -/
def reverse_build (d : Dict) : List (Str × List Str) :=
  d.foldl (fun acc p => addRev acc p.2 p.1) []

/-- The collapse condition of `reverse_dict` (source line 28): every reversed
entry holds at most one key. -/
def collapses (d : Dict) : Bool :=
  (reverse_build d).all (fun p => decide (p.2.length ≤ 1))

/-- Source lines 13-33, `reverse_dict`: invert the dictionary; when every
entry holds at most one key, store bare scalars (`v[0] if v else None`),
otherwise store the lists. -/
def reverse_dict (d : Dict) : List (Str × PyRet) :=
  let rd := reverse_build d
  if collapses d then
    rd.map (fun p => (p.1, PyRet.scalar (match p.2 with | [] => none | x :: _ => some x)))
  else
    rd.map (fun p => (p.1, PyRet.list (p.2.map some)))

/-- Source lines 190-222, `reverse_zcta_crosswalk`: format the input, look it
up in the reverse crosswalk and return the stored value on a hit; on a miss,
return `[formatted]` when the formatted value is a key of the forward
crosswalk or when `use_zcta_if_error` is set, else the empty list.  The
formatted value `None` is never a key of either string-keyed table. -/
def reverse_zcta_crosswalk (cw : Dict) (zcta : RawInput) (use_zcta_if_error : Bool) : PyRet :=
  let zf := zip_code_formatter zcta
  (zf.bind (dictGet (reverse_dict cw))).getD
    (if (zf.bind (dictGet cw)).isSome then PyRet.list [zf]
     else if use_zcta_if_error then PyRet.list [zf]
     else PyRet.list [])

/-- Source lines 270-311, `lat_lon_centroid`: resolve the ZCTA via the
crosswalk, re-format it, look it up in the centroid table, and return the
stored pair on a hit or `(None, None)` on a miss.  Stored coordinates are
two numbers or two nulls (the numeric type is abstract here). -/
def lat_lon_centroid {α : Type} (cw : Dict)
    (latlon_crosswalk : List (Str × (Option α × Option α))) (postal_code : RawInput)
    (use_postalcode_if_error : Bool) : Option α × Option α :=
  let zcta := zip_code_formatter (retToRaw (zip_code_crosswalk cw postal_code use_postalcode_if_error))
  (zcta.bind (dictGet latlon_crosswalk)).getD (none, none)

/-- The `year` argument of `ZipCodes.__init__`: either a value coercible to an
integer (with that integer) or one on which `int()` raises. -/
inductive YearInput where
  | int : Int → YearInput
  | invalid : YearInput
deriving DecidableEq

/-- Source lines 43-57 of `ZipCodes.__init__`: coerce the year to an integer
(defaulting to 2020 when `int()` raises), keep 2010 and 2020 as they are, and
send every other year to 2010 when below 2020 and to 2020 otherwise. -/
def resolve_year (y : YearInput) : Int :=
  let year : Int :=
    match y with
    | .int n => n
    | .invalid => 2020
  if year = 2010 ∨ year = 2020 then year
  else if year < 2020 then 2010 else 2020

/-- The backing JSON resources, one crosswalk file and one centroid file per
resolved year string (the files themselves are external data, not code). -/
structure DataSource (α : Type) where
  crosswalk_json : String → Dict
  latlon_json : String → List (Str × (Option α × Option α))

/-- A read of one of the backing resources performed by `ZipCodes.__init__`
(the `open(...)`/`json.load(...)` pairs at source lines 80-83 and 92-95). -/
inductive ReadEvent where
  | crosswalkFile : String → ReadEvent
  | latlonFile : String → ReadEvent
deriving DecidableEq

/-- The state of a constructed `ZipCodes` object (source lines 41-95). -/
structure ZipCodesObj (α : Type) where
  year : String
  crosswalk : Dict
  reverse_crosswalk : List (Str × PyRet)
  latlon_centroids : List (Str × (Option α × Option α))
deriving DecidableEq

/-- Source lines 41-95, `ZipCodes.__init__`: resolve the year, read the
crosswalk file, derive the reverse crosswalk, and read the centroid file.
The returned trace records the resource reads this construction performs. -/
def ZipCodes_init {α : Type} (ds : DataSource α) (year : YearInput) :
    ZipCodesObj α × List ReadEvent :=
  let y := toString (resolve_year year)
  let cw := ds.crosswalk_json y
  let ll := ds.latlon_json y
  (⟨y, cw, reverse_dict cw, ll⟩, [ReadEvent.crosswalkFile y, ReadEvent.latlonFile y])

/-- The reads performed by a sequence of table-load requests, each request
constructing a fresh `ZipCodes` object exactly as the resolvers do. -/
def loadTrace {α : Type} (ds : DataSource α) (ys : List YearInput) : List ReadEvent :=
  (ys.map (fun y => (ZipCodes_init ds y).2)).flatten

/-- How many times a given read event occurs in a trace. -/
def countEvent (tr : List ReadEvent) (e : ReadEvent) : Nat :=
  (tr.filter (fun x => decide (x = e))).length

/-- The preimage of a value under a dictionary: the keys mapping to it, in
dictionary order. -/
def preim (d : Dict) (v : Str) : List Str :=
  (d.filter (fun p => decide (p.2 = v))).map Prod.fst

/-- The decimal digit characters. -/
def digitChars : List Char :=
  ['0', '1', '2', '3', '4', '5', '6', '7', '8', '9']

/-- A valid 5-digit code in the sense of the data contract: exactly five
characters, all decimal digits. -/
def isFiveDigitCode (s : Str) : Bool :=
  decide (s.length = 5) && s.all (fun c => decide (c ∈ digitChars))

/-- Whether a code occurs in a resolver result: it is the bare scalar itself,
or an element of the returned list. -/
def zipsInclude (z : Str) : PyRet → Bool
  | .scalar v => decide (v = some z)
  | .list l => decide (some z ∈ l)

/-! Helper lemmas about the normalizer. -/

theorem length_truncate5 (s : Str) : (truncate5 s).length ≤ 5 := by
  unfold truncate5
  split
  · simp only [List.length_take]
    omega
  · omega

theorem mem_removeAll {s : Str} {c a : Char} (h : a ∈ removeAll s c) : a ∈ s :=
  (List.mem_filter.mp h).1

theorem not_mem_removeAll (s : Str) (c : Char) : c ∉ removeAll s c := by
  intro h
  have := (List.mem_filter.mp h).2
  simp at this

theorem length_removeAll (s : Str) (c : Char) : (removeAll s c).length ≤ s.length :=
  List.length_filter_le _ _

theorem strip_no_hyphen (s : Str) : '-' ∉ strip_separators s := by
  unfold strip_separators
  split
  · intro h
    exact not_mem_removeAll s '-' (mem_removeAll h)
  · next h => exact h

theorem length_strip (s : Str) : (strip_separators s).length ≤ s.length := by
  unfold strip_separators
  split
  · exact le_trans (length_removeAll _ _) (length_removeAll _ _)
  · exact le_refl _

theorem pad_cases (s : Str) :
    (s.length ≠ 3 ∧ s.length ≠ 4 ∧ pad_to_five s = s) ∨ (pad_to_five s).length = 5 := by
  unfold pad_to_five
  by_cases h3 : s.length = 3
  · right
    have hlen : ('0' :: '0' :: s).length = 5 := by simp [h3]
    simp only [if_pos h3]
    rw [if_neg (by omega)]
    exact hlen
  · simp only [if_neg h3]
    by_cases h4 : s.length = 4
    · right
      rw [if_pos h4]
      simp [h4]
    · left
      exact ⟨h3, h4, by rw [if_neg h4]⟩

theorem mem_pad {s : Str} {a : Char} (h : a ∈ pad_to_five s) : a ∈ s ∨ a = '0' := by
  simp only [pad_to_five] at h
  split at h <;> split at h <;> (try simp only [List.mem_cons] at h) <;> tauto

theorem formatted_string_props (x : RawInput) :
    (formatted_string x).length ≤ 5 ∧ (formatted_string x).length ≠ 3 ∧
    (formatted_string x).length ≠ 4 ∧ '-' ∉ formatted_string x := by
  unfold formatted_string
  have hlen : (strip_separators (truncate5 (pyStr x))).length ≤ 5 :=
    le_trans (length_strip _) (length_truncate5 _)
  have hhyp : '-' ∉ strip_separators (truncate5 (pyStr x)) := strip_no_hyphen _
  have hmem : '-' ∉ pad_to_five (strip_separators (truncate5 (pyStr x))) := by
    intro hm
    rcases mem_pad hm with hm' | hm'
    · exact hhyp hm'
    · exact absurd hm' (by decide)
  rcases pad_cases (strip_separators (truncate5 (pyStr x))) with ⟨h3, h4, heq⟩ | h5
  · rw [heq]
    exact ⟨hlen, h3, h4, hhyp⟩
  · exact ⟨by omega, by omega, by omega, hmem⟩

theorem zip_code_formatter_eq_some {x : RawInput} {s : Str}
    (h : zip_code_formatter x = some s) :
    formatted_string x = s ∧ ¬(s = [] ∨ s.map Char.toLower ∈ null_list) := by
  simp only [zip_code_formatter] at h
  split at h
  · exact absurd h (by simp)
  · next hc =>
    have heq : formatted_string x = s := Option.some.inj h
    rw [heq] at hc
    exact ⟨heq, hc⟩

theorem formatter_fix {x : RawInput} {s : Str} (h : zip_code_formatter x = some s) :
    zip_code_formatter (.str s) = some s := by
  obtain ⟨hfs, hc⟩ := zip_code_formatter_eq_some h
  have props := formatted_string_props x
  rw [hfs] at props
  obtain ⟨hle, h3, h4, hhyp⟩ := props
  have htr : truncate5 s = s := by
    unfold truncate5
    rw [if_neg (by omega)]
  have hst : strip_separators s = s := by
    unfold strip_separators
    rw [if_neg hhyp]
  have hpad : pad_to_five s = s := by
    unfold pad_to_five
    rw [if_neg h3, if_neg h4]
  have hfx : formatted_string (.str s) = s := by
    unfold formatted_string
    show pad_to_five (strip_separators (truncate5 s)) = s
    rw [htr, hst, hpad]
  simp only [zip_code_formatter]
  rw [hfx, if_neg hc]

theorem digit_toLower : ∀ c ∈ digitChars, Char.toLower c = c := by decide

theorem null_list_not_code :
    ∀ t ∈ null_list, ¬(t.length = 5 ∧ ∀ c ∈ t, c ∈ digitChars) := by decide

theorem five_digit_parts {s : Str} (h : isFiveDigitCode s = true) :
    s.length = 5 ∧ ∀ c ∈ s, c ∈ digitChars := by
  unfold isFiveDigitCode at h
  rw [Bool.and_eq_true, List.all_eq_true] at h
  constructor
  · exact of_decide_eq_true h.1
  · intro c hc
    exact of_decide_eq_true (h.2 c hc)

theorem five_digit_fix {s : Str} (h : isFiveDigitCode s = true) :
    zip_code_formatter (.str s) = some s := by
  obtain ⟨hlen, hdig⟩ := five_digit_parts h
  have hhyp : '-' ∉ s := fun hm => absurd (hdig _ hm) (by decide)
  have htr : truncate5 s = s := by
    unfold truncate5
    rw [if_neg (by omega)]
  have hst : strip_separators s = s := by
    unfold strip_separators
    rw [if_neg hhyp]
  have hpad : pad_to_five s = s := by
    have h3 : ¬s.length = 3 := by omega
    have h4 : ¬s.length = 4 := by omega
    unfold pad_to_five
    rw [if_neg h3, if_neg h4]
  have hfx : formatted_string (.str s) = s := by
    unfold formatted_string
    show pad_to_five (strip_separators (truncate5 s)) = s
    rw [htr, hst, hpad]
  have hmap : s.map Char.toLower = s := by
    have hcong : ∀ c ∈ s, Char.toLower c = id c := fun c hc => digit_toLower c (hdig c hc)
    rw [List.map_congr_left hcong, List.map_id]
  have hnn : ¬(s = [] ∨ s.map Char.toLower ∈ null_list) := by
    rw [hmap]
    rintro (h1 | h2)
    · rw [h1] at hlen
      simp at hlen
    · exact null_list_not_code s h2 ⟨hlen, hdig⟩
  simp only [zip_code_formatter]
  rw [hfx, if_neg hnn]

/-! Helper lemmas about dictionaries and the reverse crosswalk. -/

theorem dictGet_of_mem {α : Type} {d : List (Str × α)} (hd : distinctKeys d) {k : Str} {v : α}
    (h : (k, v) ∈ d) : dictGet d k = some v := by
  induction d with
  | nil => simp at h
  | cons p rest ih =>
    obtain ⟨k', v'⟩ := p
    unfold distinctKeys at hd
    rw [List.map_cons, List.nodup_cons] at hd
    obtain ⟨hn, hd'⟩ := hd
    rcases List.mem_cons.mp h with h1 | h1
    · rw [Prod.mk.injEq] at h1
      obtain ⟨hk, hv⟩ := h1
      subst hk
      subst hv
      unfold dictGet
      rw [if_pos rfl]
    · by_cases hk : k' = k
      · subst hk
        exact absurd (List.mem_map.mpr ⟨(k', v), h1, rfl⟩) hn
      · unfold dictGet
        rw [if_neg hk]
        exact ih hd' h1

theorem mem_of_dictGet {α : Type} {d : List (Str × α)} {k : Str} {v : α}
    (h : dictGet d k = some v) : (k, v) ∈ d := by
  induction d with
  | nil => simp [dictGet] at h
  | cons p rest ih =>
    obtain ⟨k', v'⟩ := p
    unfold dictGet at h
    split at h
    · next hk =>
      subst hk
      rw [Option.some.injEq] at h
      subst h
      exact List.mem_cons_self _ _
    · exact List.mem_cons_of_mem _ (ih h)

theorem dictGet_nil {α : Type} (w : Str) : dictGet ([] : List (Str × α)) w = none := rfl

theorem dictGet_cons {α : Type} (k' : Str) (v' : α) (rest : List (Str × α)) (w : Str) :
    dictGet ((k', v') :: rest) w = if k' = w then some v' else dictGet rest w := rfl

theorem dictGet_addRev (acc : List (Str × List Str)) (v k w : Str) :
    dictGet (addRev acc v k) w =
      if w = v then some ((dictGet acc v).getD [] ++ [k]) else dictGet acc w := by
  induction acc with
  | nil =>
    show dictGet [(v, [k])] w = _
    rw [dictGet_cons, dictGet_nil, dictGet_nil]
    by_cases hw : w = v
    · rw [if_pos hw.symm, if_pos hw]
      simp
    · rw [if_neg (fun h => hw h.symm), if_neg hw]
  | cons p rest ih =>
    obtain ⟨v', l⟩ := p
    show dictGet (if v' = v then (v', l ++ [k]) :: rest else (v', l) :: addRev rest v k) w = _
    by_cases hv : v' = v
    · subst hv
      rw [if_pos rfl, dictGet_cons, dictGet_cons, dictGet_cons, if_pos rfl]
      by_cases hw : w = v'
      · rw [if_pos hw.symm, if_pos hw]
        simp
      · rw [if_neg (fun h => hw h.symm), if_neg hw, if_neg (fun h => hw h.symm)]
    · rw [if_neg hv, dictGet_cons, dictGet_cons, dictGet_cons, if_neg hv]
      by_cases hw : v' = w
      · have hwv : ¬w = v := fun h => hv (h ▸ hw)
        rw [if_pos hw, if_neg hwv, if_pos hw]
      · rw [if_neg hw, if_neg hw, ih]

theorem preim_nil (w : Str) : preim [] w = [] := rfl

theorem preim_cons (k v : Str) (rest : Dict) (w : Str) :
    preim ((k, v) :: rest) w = if v = w then k :: preim rest w else preim rest w := by
  unfold preim
  rw [List.filter_cons]
  by_cases h : v = w
  · rw [if_pos (by simpa using h), if_pos h, List.map_cons]
  · rw [if_neg (by simpa using h), if_neg h]

theorem dictGet_revfold (d : Dict) (acc : List (Str × List Str)) (w : Str) :
    dictGet (d.foldl (fun a p => addRev a p.2 p.1) acc) w =
      if (dictGet acc w).isSome ∨ preim d w ≠ [] then
        some ((dictGet acc w).getD [] ++ preim d w)
      else none := by
  induction d generalizing acc with
  | nil =>
    rw [List.foldl_nil, preim_nil]
    cases h : dictGet acc w with
    | none => simp [h]
    | some old => simp [h]
  | cons p rest ih =>
    obtain ⟨k, v⟩ := p
    rw [List.foldl_cons, ih (addRev acc v k), dictGet_addRev, preim_cons]
    by_cases hwv : w = v
    · subst hwv
      simp [List.append_assoc]
    · rw [if_neg hwv, if_neg (fun h : v = w => hwv h.symm)]

theorem dictGet_reverse_build (d : Dict) (w : Str) :
    dictGet (reverse_build d) w = if preim d w = [] then none else some (preim d w) := by
  unfold reverse_build
  rw [dictGet_revfold, dictGet_nil]
  by_cases h : preim d w = []
  · simp [h]
  · simp [h]

theorem dictGet_mapVal {α β : Type} (f : α → β) (d : List (Str × α)) (w : Str) :
    dictGet (d.map (fun p => (p.1, f p.2))) w = (dictGet d w).map f := by
  induction d with
  | nil => rfl
  | cons p rest ih =>
    obtain ⟨k, v⟩ := p
    rw [List.map_cons, dictGet_cons, dictGet_cons]
    by_cases h : k = w
    · rw [if_pos h, if_pos h]
      rfl
    · rw [if_neg h, if_neg h, ih]

theorem dictGet_reverse_dict (d : Dict) (w : Str) :
    dictGet (reverse_dict d) w =
      if collapses d then
        (dictGet (reverse_build d) w).map
          (fun l => PyRet.scalar (match l with | [] => none | x :: _ => some x))
      else (dictGet (reverse_build d) w).map (fun l => PyRet.list (l.map some)) := by
  simp only [reverse_dict]
  split
  · exact dictGet_mapVal
      (fun l => PyRet.scalar (match l with | [] => none | x :: _ => some x)) (reverse_build d) w
  · exact dictGet_mapVal (fun l => PyRet.list (l.map some)) (reverse_build d) w

theorem mem_preim {d : Dict} {k v : Str} (h : (k, v) ∈ d) : k ∈ preim d v :=
  List.mem_map.mpr ⟨(k, v), List.mem_filter.mpr ⟨h, by simp⟩, rfl⟩

/-! Claim theorems. -/

/-- C1: for every raw code and crosswalk table (generation), `zip_code_crosswalk`
returns the mapped ZCTA when the normalized code is a key of the table; when the
normalized code is absent and `use_postalcode_if_error` is true it returns the
normalized input code unchanged, and when it is false it returns `None`. -/
theorem zip_code_crosswalk_resolution (cw : Dict) (x : RawInput) (use : Bool) :
    (∀ p z, zip_code_formatter x = some p → dictGet cw p = some z →
      zip_code_crosswalk cw x use = some z) ∧
    (∀ p, zip_code_formatter x = some p → dictGet cw p = none →
      zip_code_crosswalk cw x use = if use then some p else none) ∧
    (zip_code_formatter x = none → zip_code_crosswalk cw x use = none) := by
  refine ⟨?_, ?_, ?_⟩
  · intro p z hp hz
    simp only [zip_code_crosswalk, hp, Option.some_bind, hz]
  · intro p hp hz
    simp only [zip_code_crosswalk, hp, Option.some_bind, hz]
  · intro hp
    simp only [zip_code_crosswalk, hp, Option.none_bind]
    cases use <;> rfl

/-- Witness for C1 at a concrete table and codes: a hit returns the mapped
value, and a miss behaves according to the flag. -/
theorem zip_code_crosswalk_resolution_witness :
    zip_code_crosswalk [("00601".toList, "00601".toList)] (.str "00601".toList) false
      = some "00601".toList ∧
    zip_code_crosswalk [("00601".toList, "00601".toList)] (.str "99999".toList) false
      = none ∧
    zip_code_crosswalk [("00601".toList, "00601".toList)] (.str "99999".toList) true
      = some "99999".toList := by
  refine ⟨?_, ?_, ?_⟩
  · exact (zip_code_crosswalk_resolution [("00601".toList, "00601".toList)]
      (.str "00601".toList) false).1 "00601".toList "00601".toList (by decide) (by decide)
  · exact (zip_code_crosswalk_resolution [("00601".toList, "00601".toList)]
      (.str "99999".toList) false).2.1 "99999".toList (by decide) (by decide)
  · exact (zip_code_crosswalk_resolution [("00601".toList, "00601".toList)]
      (.str "99999".toList) true).2.1 "99999".toList (by decide) (by decide)

/-- C6: normalization is idempotent: feeding the result of `zip_code_formatter`
(a string, or `None`) back into it returns the same result. -/
theorem zip_code_formatter_idempotent (x : RawInput) :
    zip_code_formatter (retToRaw (zip_code_formatter x)) = zip_code_formatter x := by
  cases h : zip_code_formatter x with
  | none =>
    show zip_code_formatter .pyNone = none
    decide
  | some s =>
    show zip_code_formatter (.str s) = some s
    exact formatter_fix h

/-- C7: the stated concrete cases of the normalizer, and the null-sentinel
rule: every input whose final processed string is empty or, lowercased, one
of the sentinel strings normalizes to `None`. -/
theorem zip_code_formatter_cases :
    zip_code_formatter (.str "12345-6789".toList) = some "12345".toList ∧
    zip_code_formatter (.int 501) = some "00501".toList ∧
    zip_code_formatter (.str "".toList) = none ∧
    zip_code_formatter (.str "nan".toList) = none ∧
    (∀ x : RawInput,
      formatted_string x = [] ∨ (formatted_string x).map Char.toLower ∈ null_list →
      zip_code_formatter x = none) := by
  refine ⟨by decide, by decide, by decide, by decide, ?_⟩
  intro x hx
  simp only [zip_code_formatter]
  rw [if_pos hx]

/-- Witness for C7 at the input `None`: its processed string is the sentinel
string `0None`, so the normalizer returns `None`. -/
theorem zip_code_formatter_cases_witness :
    zip_code_formatter .pyNone = none :=
  zip_code_formatter_cases.2.2.2.2 .pyNone (by decide)

/-- C8: year resolution policy of `ZipCodes.__init__`: a value on which
integer coercion fails resolves to 2020; 2010 and 2020 map to themselves;
every other integer below 2020 maps to 2010; every integer above 2020 maps
to 2020; in particular 2015 resolves to 2010 and 2021 to 2020. -/
theorem resolve_year_policy :
    resolve_year .invalid = 2020 ∧
    resolve_year (.int 2010) = 2010 ∧
    resolve_year (.int 2020) = 2020 ∧
    (∀ n : Int, n ≠ 2010 → n ≠ 2020 → n < 2020 → resolve_year (.int n) = 2010) ∧
    (∀ n : Int, n > 2020 → resolve_year (.int n) = 2020) ∧
    resolve_year (.int 2015) = 2010 ∧
    resolve_year (.int 2021) = 2020 := by
  refine ⟨by decide, by decide, by decide, ?_, ?_, by decide, by decide⟩
  · intro n h1 h2 h3
    show (if n = 2010 ∨ n = 2020 then n else if n < 2020 then 2010 else 2020) = 2010
    rw [if_neg (by tauto), if_pos h3]
  · intro n h
    show (if n = 2010 ∨ n = 2020 then n else if n < 2020 then 2010 else 2020) = 2020
    rw [if_neg (by omega), if_neg (by omega)]

/-- Witness for C8 at the concrete year 1990: it resolves to the 2010
generation. -/
theorem resolve_year_policy_witness : resolve_year (.int 1990) = 2010 :=
  resolve_year_policy.2.2.2.1 1990 (by decide) (by decide) (by decide)

/-- Counterexample to C2 as stated: the non-null result of the normalizer is
not always a 5-character digit string with all spaces removed.  The input
string of length 2 is returned unchanged, and a 3-character input containing
a space is zero-padded with the space kept (spaces are only stripped when a
hyphen is present). -/
theorem zip_code_formatter_not_five_digits :
    zip_code_formatter (.str "12".toList) = some "12".toList ∧
    ("12".toList : Str).length ≠ 5 ∧
    zip_code_formatter (.str "1 2".toList) = some "001 2".toList ∧
    ' ' ∈ ("001 2".toList : Str) := by
  decide

/-- C2 amended: whenever the normalizer returns a non-null result, that result
contains no hyphen and its length is at most 5 and never exactly 3 or 4; the
result may be shorter than 5 characters and may retain spaces or non-digit
characters. -/
theorem zip_code_formatter_shape (x : RawInput) (s : Str)
    (h : zip_code_formatter x = some s) :
    '-' ∉ s ∧ s.length ≤ 5 ∧ s.length ≠ 3 ∧ s.length ≠ 4 := by
  obtain ⟨hfs, -⟩ := zip_code_formatter_eq_some h
  have props := formatted_string_props x
  rw [hfs] at props
  obtain ⟨hle, h3, h4, hhyp⟩ := props
  exact ⟨hhyp, hle, h3, h4⟩

/-- Witness for the amended C2 at a concrete hyphenated input. -/
theorem zip_code_formatter_shape_witness :
    zip_code_formatter (.str "12345-6789".toList) = some "12345".toList ∧
    ('-' ∉ ("12345".toList : Str) ∧ ("12345".toList : Str).length ≤ 5 ∧
      ("12345".toList : Str).length ≠ 3 ∧ ("12345".toList : Str).length ≠ 4) :=
  ⟨by decide, zip_code_formatter_shape (.str "12345-6789".toList) "12345".toList (by decide)⟩

/-- C9: whenever the resolved (and re-formatted) ZCTA has no entry in the
centroid table, `lat_lon_centroid` returns the fixed-arity pair
`(None, None)`, for either value of the fallback flag. -/
theorem lat_lon_centroid_miss {α : Type} (cw : Dict)
    (ll : List (Str × (Option α × Option α))) (x : RawInput) (use : Bool)
    (h : ∀ z, zip_code_formatter (retToRaw (zip_code_crosswalk cw x use)) = some z →
      dictGet ll z = none) :
    lat_lon_centroid cw ll x use = (none, none) := by
  simp only [lat_lon_centroid]
  cases hz : zip_code_formatter (retToRaw (zip_code_crosswalk cw x use)) with
  | none => rfl
  | some z =>
    rw [Option.some_bind, h z hz]
    rfl

/-- Witness for C9 at empty tables and a concrete code, for both flag values. -/
theorem lat_lon_centroid_miss_witness :
    lat_lon_centroid ([] : Dict) ([] : List (Str × (Option Int × Option Int)))
      (.str "00601".toList) true = (none, none) ∧
    lat_lon_centroid ([] : Dict) ([] : List (Str × (Option Int × Option Int)))
      (.str "00601".toList) false = (none, none) :=
  ⟨lat_lon_centroid_miss [] [] (.str "00601".toList) true (fun _ _ => rfl),
   lat_lon_centroid_miss [] [] (.str "00601".toList) false (fun _ _ => rfl)⟩

theorem reverse_build_entry {cw : Dict} {z : Str} {l : List Str}
    (h : dictGet (reverse_build cw) z = some l) : l = preim cw z ∧ preim cw z ≠ [] := by
  rw [dictGet_reverse_build] at h
  split at h
  · exact absurd h (by simp)
  · next hne => exact ⟨(Option.some.inj h).symm, hne⟩

theorem reverse_dict_value_shape {cw : Dict} {z : Str} {v : PyRet}
    (hv : dictGet (reverse_dict cw) z = some v) :
    (∃ s, v = PyRet.scalar s) ∨ ∃ l, l ≠ [] ∧ v = PyRet.list (l.map some) := by
  rw [dictGet_reverse_dict] at hv
  split at hv
  · cases hb : dictGet (reverse_build cw) z with
    | none =>
      rw [hb] at hv
      exact absurd hv (by simp)
    | some l =>
      rw [hb, Option.map_some'] at hv
      exact Or.inl ⟨_, (Option.some.inj hv).symm⟩
  · cases hb : dictGet (reverse_build cw) z with
    | none =>
      rw [hb] at hv
      exact absurd hv (by simp)
    | some l =>
      rw [hb, Option.map_some'] at hv
      exact Or.inr ⟨l, (reverse_build_entry hb).1 ▸ (reverse_build_entry hb).2,
        (Option.some.inj hv).symm⟩

/-- C10: for every input that normalizes to the null sentinel,
`reverse_zcta_crosswalk` with `use_zcta_if_error` true (the default) returns
the one-element list containing `None`; and with that flag set the result is
never the empty list. -/
theorem reverse_zcta_crosswalk_never_empty (cw : Dict) (x : RawInput) :
    (zip_code_formatter x = none →
      reverse_zcta_crosswalk cw x true = PyRet.list [none]) ∧
    reverse_zcta_crosswalk cw x true ≠ PyRet.list [] := by
  constructor
  · intro h
    simp only [reverse_zcta_crosswalk, h, Option.none_bind, Option.getD_none]
    rfl
  · cases hz : zip_code_formatter x with
    | none =>
      simp only [reverse_zcta_crosswalk, hz, Option.none_bind, Option.getD_none]
      intro hcontra
      exact absurd hcontra (by decide)
    | some z =>
      cases hv : dictGet (reverse_dict cw) z with
      | some v =>
        simp only [reverse_zcta_crosswalk, hz, Option.some_bind, hv, Option.getD_some]
        rcases reverse_dict_value_shape hv with ⟨s, rfl⟩ | ⟨l, hl, rfl⟩
        · intro hcontra
          exact PyRet.noConfusion hcontra
        · intro hcontra
          have := PyRet.list.inj hcontra
          exact hl (List.map_eq_nil_iff.mp this)
      | none =>
        simp only [reverse_zcta_crosswalk, hz, Option.some_bind, hv, Option.getD_none]
        split
        · intro hcontra
          have := PyRet.list.inj hcontra
          simp at this
        · intro hcontra
          have := PyRet.list.inj hcontra
          simp at this

/-- Witness for C10 at the input `None` and an empty crosswalk. -/
theorem reverse_zcta_crosswalk_never_empty_witness :
    reverse_zcta_crosswalk [] .pyNone true = PyRet.list [none] :=
  (reverse_zcta_crosswalk_never_empty [] .pyNone).1 (by decide)

/-- Counterexample to C3 as stated: on a crosswalk whose reverse table
collapses (every ZCTA with at most one postal code), a found key returns the
bare scalar stored by `reverse_dict`, not a list. -/
theorem reverse_zcta_crosswalk_scalar_on_collapse :
    reverse_zcta_crosswalk [("00601".toList, "00601".toList)] (.str "00601".toList) true
      = PyRet.scalar (some "00601".toList) ∧
    PyRet.isList (PyRet.scalar (some "00601".toList)) = false := by
  decide

/-- C3 amended: `reverse_zcta_crosswalk` returns a list on every miss branch
(already-a-ZIP, `use_zcta_if_error`, empty fallback) and on every hit when the
reverse table did not collapse; when every ZCTA has at most one postal code,
a hit returns the bare scalar stored by `reverse_dict`. -/
theorem reverse_zcta_crosswalk_list_shape (cw : Dict) (x : RawInput) (use : Bool) :
    (collapses cw = false → PyRet.isList (reverse_zcta_crosswalk cw x use) = true) ∧
    (∀ z, zip_code_formatter x = some z → dictGet (reverse_dict cw) z = none →
      PyRet.isList (reverse_zcta_crosswalk cw x use) = true) ∧
    (zip_code_formatter x = none → PyRet.isList (reverse_zcta_crosswalk cw x use) = true) := by
  have hmiss : ∀ (zf : Option Str),
      PyRet.isList (if (zf.bind (dictGet cw)).isSome then PyRet.list [zf]
        else if use then PyRet.list [zf] else PyRet.list []) = true := by
    intro zf
    split
    · rfl
    · split <;> rfl
  refine ⟨?_, ?_, ?_⟩
  · intro hc
    cases hz : zip_code_formatter x with
    | none =>
      simp only [reverse_zcta_crosswalk, hz, Option.none_bind, Option.getD_none]
      exact hmiss none
    | some z =>
      cases hv : dictGet (reverse_dict cw) z with
      | none =>
        simp only [reverse_zcta_crosswalk, hz, Option.some_bind, hv, Option.getD_none]
        exact hmiss (some z)
      | some v =>
        simp only [reverse_zcta_crosswalk, hz, Option.some_bind, hv, Option.getD_some]
        rw [dictGet_reverse_dict, if_neg (by simp [hc])] at hv
        cases hb : dictGet (reverse_build cw) z with
        | none =>
          rw [hb] at hv
          exact absurd hv (by simp)
        | some l =>
          rw [hb, Option.map_some'] at hv
          rw [← Option.some.inj hv]
          rfl
  · intro z hz hv
    simp only [reverse_zcta_crosswalk, hz, Option.some_bind, hv, Option.getD_none]
    exact hmiss (some z)
  · intro hz
    simp only [reverse_zcta_crosswalk, hz, Option.none_bind, Option.getD_none]
    exact hmiss none

/-- Witness for the amended C3 at a crosswalk with a two-ZIP ZCTA: the
reverse table does not collapse, and a hit comes back as a list. -/
theorem reverse_zcta_crosswalk_list_shape_witness :
    collapses [("00601".toList, "00601".toList), ("00602".toList, "00601".toList)] = false ∧
    PyRet.isList (reverse_zcta_crosswalk
      [("00601".toList, "00601".toList), ("00602".toList, "00601".toList)]
      (.str "00601".toList) true) = true :=
  ⟨by decide, (reverse_zcta_crosswalk_list_shape
    [("00601".toList, "00601".toList), ("00602".toList, "00601".toList)]
    (.str "00601".toList) true).1 (by decide)⟩

/-- C5: reverse consistency and round trip.  For a crosswalk with distinct
keys whose keys and values are valid 5-digit codes, every pair `(z, t)` of the
table satisfies: `z` occurs in the result of `reverse_zcta_crosswalk` applied
to `t`; `zip_code_crosswalk` on `z` returns exactly the mapped value `t`; and
chaining the two resolvers returns a result containing the original `z`. -/
theorem crosswalk_roundtrip (cw : Dict) (use : Bool) (z t : Str)
    (hd : distinctKeys cw)
    (hcodes : ∀ p ∈ cw, isFiveDigitCode p.1 = true ∧ isFiveDigitCode p.2 = true)
    (hmem : (z, t) ∈ cw) :
    zipsInclude z (reverse_zcta_crosswalk cw (.str t) use) = true ∧
    zip_code_crosswalk cw (.str z) use = some t ∧
    zipsInclude z (reverse_zcta_crosswalk cw
      (retToRaw (zip_code_crosswalk cw (.str z) use)) use) = true := by
  have hft : zip_code_formatter (.str t) = some t := five_digit_fix (hcodes (z, t) hmem).2
  have hfz : zip_code_formatter (.str z) = some z := five_digit_fix (hcodes (z, t) hmem).1
  have hmempre : z ∈ preim cw t := mem_preim hmem
  have hpne : preim cw t ≠ [] := by
    intro hp
    rw [hp] at hmempre
    simp at hmempre
  have hrb : dictGet (reverse_build cw) t = some (preim cw t) := by
    rw [dictGet_reverse_build, if_neg hpne]
  have part1 : zipsInclude z (reverse_zcta_crosswalk cw (.str t) use) = true := by
    simp only [reverse_zcta_crosswalk, hft, Option.some_bind]
    rw [dictGet_reverse_dict]
    by_cases hc : collapses cw
    · rw [if_pos hc, hrb, Option.map_some', Option.getD_some]
      have hlen : (preim cw t).length ≤ 1 := by
        have hmemrb : (t, preim cw t) ∈ reverse_build cw := mem_of_dictGet hrb
        exact of_decide_eq_true (List.all_eq_true.mp hc _ hmemrb)
      have hzt : preim cw t = [z] := by
        cases hp : preim cw t with
        | nil => exact absurd hp hpne
        | cons a rest =>
          rw [hp] at hmempre hlen
          cases rest with
          | nil =>
            have haz : z = a := by simpa using hmempre
            rw [haz]
          | cons b r => simp at hlen
      rw [hzt]
      exact decide_eq_true rfl
    · rw [if_neg hc, hrb, Option.map_some', Option.getD_some]
      exact decide_eq_true (List.mem_map.mpr ⟨z, hmempre, rfl⟩)
  have part2 : zip_code_crosswalk cw (.str z) use = some t := by
    simp only [zip_code_crosswalk, hfz, Option.some_bind, dictGet_of_mem hd hmem]
  refine ⟨part1, part2, ?_⟩
  rw [part2]
  exact part1

/-- Witness for C5 at a concrete two-entry crosswalk. -/
theorem crosswalk_roundtrip_witness :
    zipsInclude "00602".toList
      (reverse_zcta_crosswalk
        [("00601".toList, "00601".toList), ("00602".toList, "00601".toList)]
        (.str "00601".toList) false) = true ∧
    zip_code_crosswalk [("00601".toList, "00601".toList), ("00602".toList, "00601".toList)]
      (.str "00602".toList) false = some "00601".toList ∧
    zipsInclude "00602".toList
      (reverse_zcta_crosswalk
        [("00601".toList, "00601".toList), ("00602".toList, "00601".toList)]
        (retToRaw (zip_code_crosswalk
          [("00601".toList, "00601".toList), ("00602".toList, "00601".toList)]
          (.str "00602".toList) false)) false) = true :=
  crosswalk_roundtrip [("00601".toList, "00601".toList), ("00602".toList, "00601".toList)]
    false "00602".toList "00601".toList (by decide) (by decide) (by decide)

/-- Counterexample to C4 as stated: two load requests for the same generation
read the crosswalk resource twice; nothing is cached, so the resource is not
read at most once per process. -/
theorem table_loading_not_cached :
    countEvent
      (loadTrace (⟨fun _ => [], fun _ => []⟩ : DataSource Int)
        [.int 2020, .int 2020])
      (.crosswalkFile "2020") = 2 ∧
    ¬(2 ≤ 1) := by
  decide

/-- C4 amended: table loading is deterministic but not cached: two loads of
the same resolved generation return structurally identical objects, while a
sequence of load requests performs two resource reads per request (one
crosswalk read and one centroid read each), re-reading the backing resources
every time. -/
theorem table_loading_deterministic_rereads {α : Type} (ds : DataSource α)
    (y1 y2 : YearInput) (ys : List YearInput)
    (h : resolve_year y1 = resolve_year y2) :
    (ZipCodes_init ds y1).1 = (ZipCodes_init ds y2).1 ∧
    (loadTrace ds ys).length = 2 * ys.length := by
  constructor
  · simp only [ZipCodes_init]
    rw [h]
  · induction ys with
    | nil => rfl
    | cons y rest ih =>
      show ((ZipCodes_init ds y).2 ++ loadTrace ds rest).length = 2 * (rest.length + 1)
      rw [List.length_append, ih]
      show 2 + 2 * rest.length = 2 * (rest.length + 1)
      ring
/-- Witness for the amended C4: years 2015 and 2012 resolve to the same
generation and load identical objects, and one load performs two reads. -/
theorem table_loading_deterministic_rereads_witness :
    (ZipCodes_init (⟨fun _ => [], fun _ => []⟩ : DataSource Int) (.int 2015)).1 =
      (ZipCodes_init (⟨fun _ => [], fun _ => []⟩ : DataSource Int) (.int 2012)).1 ∧
    (loadTrace (⟨fun _ => [], fun _ => []⟩ : DataSource Int) [.int 2020]).length = 2 * 1 :=
  table_loading_deterministic_rereads (⟨fun _ => [], fun _ => []⟩ : DataSource Int)
    (.int 2015) (.int 2012) [.int 2020] (by decide)
